import Mathlib

/-!
Verification of `mcrouter/tools/mcpiper/mcpiper.cpp`: the render / filter /
highlight pipeline that turns one decoded memcache record into a colorized
text block, optionally drops it when a configured content pattern does not
match, highlights matches, and writes the block to the output sink.

The embedding translates the source file directly.  Collaborators that the
source uses but whose code is not part of `src/` (the `StyledString` text
buffer, `mc_op_to_string` / `mc_res_to_string`, `folly::backslashify`, the
external value formatter, `describeFlags`, and the `boost` regular-expression
engine) are modelled from the specification, as marked on each definition.
-/

/-- Modelled from the spec: a foreground color from a fixed palette plus a
default.  The exact palette is a presentation concern; distinct constructors
stand for the distinct entries `PrettyFormat` assigns. -/
inductive Color where
  | default
  | red
  | green
  | yellow
  | blue
  | magenta
  | cyan
  | white
deriving DecidableEq, Repr

/-- The color scheme used by mcpiper (`PrettyFormat.h`, modelled from the
spec: grouping of spans into style families is the contract, the palette is
configuration). -/
structure PrettyFormat where
  attrColor : Color
  dataOpColor : Color
  dataValueColor : Color
  headerColor : Color
  matchColor : Color
  msgAttrColor : Color

/-- `const PrettyFormat kFormat{}` (mcpiper.cpp line 47): the default
coloring. -/
def kFormat : PrettyFormat :=
  ⟨Color.magenta, Color.white, Color.cyan, Color.yellow, Color.red,
   Color.green⟩

/-- Modelled from the spec (§4.1 StyledText): an ordered sequence of styled
bytes (per-byte foreground color) together with the append-color stack.  The
flattened plain text is the first projection of the runs. -/
structure StyledString where
  runs : List (Char × Color)
  stack : List Color
deriving DecidableEq, Repr

/-- The empty styled string with an empty color stack. -/
def StyledString.empty : StyledString := ⟨[], []⟩

/-- The flattened plain-text view (`StyledString::text()`). -/
def StyledString.text (s : StyledString) : List Char :=
  s.runs.map Prod.fst

/-- The implicit style used by appends without an explicit color: top of the
color stack, or default. -/
def StyledString.currentColor (s : StyledString) : Color :=
  s.stack.headD Color.default

/-- Modelled from the spec: `append(text, color)` concatenates a new run with
the given explicit color. -/
def StyledString.appendColored (s : StyledString) (t : List Char) (c : Color) :
    StyledString :=
  ⟨s.runs ++ t.map (fun ch => (ch, c)), s.stack⟩

/-- Modelled from the spec: `append(text)` uses the current top-of-stack
color (or default). -/
def StyledString.append (s : StyledString) (t : List Char) : StyledString :=
  s.appendColored t s.currentColor

/-- Modelled from the spec: appending a single character with the implicit
color (`pushBack`). -/
def StyledString.pushBack (s : StyledString) (ch : Char) : StyledString :=
  s.append [ch]

/-- Modelled from the spec: appending an already styled string verbatim,
keeping its styles. -/
def StyledString.appendStyled (s : StyledString) (o : StyledString) :
    StyledString :=
  ⟨s.runs ++ o.runs, s.stack⟩

/-- Modelled from the spec: `pushAppendColor` makes a color the implicit
style for subsequent appends until popped. -/
def StyledString.pushAppendColor (s : StyledString) (c : Color) :
    StyledString :=
  ⟨s.runs, c :: s.stack⟩

/-- Modelled from the spec: `popAppendColor` reverts to the previous implicit
style. -/
def StyledString.popAppendColor (s : StyledString) : StyledString :=
  ⟨s.runs, s.stack.tail⟩

/-- Recolors the foreground of the bytes whose absolute position lies in
`[o, o + l)`; `i` is the absolute position of the first byte of `rs`. -/
def recolorRuns : List (Char × Color) → Nat → Nat → Nat → Color →
    List (Char × Color)
  | [], _, _, _, _ => []
  | r :: rs, i, o, l, c =>
      (r.1, if o ≤ i ∧ i < o + l then c else r.2) ::
        recolorRuns rs (i + 1) o l c

/-- Modelled from the spec: `setFg(offset, length, color)` overwrites the
foreground color of exactly the requested byte range, leaving other bytes
untouched. -/
def StyledString.setFg (s : StyledString) (o l : Nat) (c : Color) :
    StyledString :=
  ⟨recolorRuns s.runs 0 o l c, s.stack⟩

/-- The foreground color of the byte at position `j`, if any. -/
def colorAt (s : StyledString) (j : Nat) : Option Color :=
  (s.runs[j]?).map Prod.snd

/-- Operation enum of a decoded record (`mc/msg.h`); only the constructors
the claims need are carried. -/
inductive McOp where
  | mc_op_unknown
  | mc_op_get
  | mc_op_set
  | mc_op_end
deriving DecidableEq, Repr

/-- Result enum of a decoded record (`mc/msg.h`). -/
inductive McRes where
  | mc_res_unknown
  | mc_res_found
  | mc_res_notfound
  | mc_res_stored
deriving DecidableEq, Repr

/-- Modelled from the spec: `mc_op_to_string` (in `mc/msg.c`, not under
`src/`) yields the operation name; the spec's rendering example shows the
set operation rendering as `set`. -/
def mc_op_to_string : McOp → List Char
  | McOp.mc_op_unknown => ("unknown").toList
  | McOp.mc_op_get => ("get").toList
  | McOp.mc_op_set => ("set").toList
  | McOp.mc_op_end => ("end").toList

/-- Modelled from the spec: `mc_res_to_string` (in `mc/msg.c`, not under
`src/`) yields the result name. -/
def mc_res_to_string : McRes → List Char
  | McRes.mc_res_unknown => ("unknown").toList
  | McRes.mc_res_found => ("found").toList
  | McRes.mc_res_notfound => ("notfound").toList
  | McRes.mc_res_stored => ("stored").toList

/-- Modelled from the spec: `folly::backslashify` renders a byte string with
non-printable bytes backslash-escaped; printable bytes pass through
unchanged. -/
def backslashify (s : List Char) : List Char :=
  s.flatMap fun c =>
    if c = '\\' then ('\\' :: '\\' :: [])
    else if c = '\n' then ('\\' :: 'n' :: [])
    else if c = '\r' then ('\\' :: 'r' :: [])
    else if c = '\t' then ('\\' :: 't' :: [])
    else if 0x20 ≤ c.toNat ∧ c.toNat ≤ 0x7e then [c]
    else ('\\' :: 'x' :: Nat.toDigits 16 c.toNat)

/-- A decoded record as consumed by `msgReady` (`mc_msg_t` fields the source
reads): operation, result, key bytes, flags, expiration and value bytes.
Absent key/value are empty lists; absent expiration is zero. -/
structure McMsg where
  op : McOp
  result : McRes
  key : List Char
  flags : Nat
  exptime : Nat
  value : List Char
deriving DecidableEq, Repr

/-- The process-wide configuration the source keeps in globals
(`gDataPattern`, `gSettings.quiet`, `gValueFormatter`) together with the
external flag-description policy: the compiled content pattern (none =
match everything), the quiet flag, `describeFlags`, and the external value
formatter `(value, flags) -> (uncompressedSize, body)`. -/
structure Env where
  dataPattern : Option (List Char)
  quiet : Bool
  describeFlags : Nat → List (List Char)
  valueFormatter : List Char → Nat → Nat × StyledString

/-- `serializeMessageHeader` (mcpiper.cpp lines 147–167): operation name if
known, then result name if known, then the backslash-escaped key if present,
separated by single spaces. -/
def serializeMessageHeader (msg : McMsg) : List Char :=
  let out : List Char := []
  let out := if msg.op ≠ McOp.mc_op_unknown then out ++ mc_op_to_string msg.op
    else out
  let out := if msg.result ≠ McRes.mc_res_unknown then
      (out ++ (if out ≠ [] then [' '] else [])) ++ mc_res_to_string msg.result
    else out
  let out := if msg.key ≠ [] then
      (out ++ (if out ≠ [] then [' '] else [])) ++ backslashify msg.key
    else out
  out

/-- Lowercase hexadecimal with a `0x` prefix, as produced by
`folly::sformat("0x{:x}", n)`. -/
def hex0x (n : Nat) : List Char :=
  '0' :: 'x' :: Nat.toDigits 16 n

/-- Fixed-point rendering with two decimal places, as produced by the
`{:.2f}` format specifier; the argument is modelled as an exact rational. -/
def formatFixed2 (q : ℚ) : List Char :=
  let n : ℤ := round (q * 100)
  let m : Nat := n.natAbs
  (if n < 0 then ['-'] else []) ++ Nat.toDigits 10 (m / 100) ++
    ('.' :: Nat.digitChar (m % 100 / 10) :: Nat.digitChar (m % 10) :: [])

/-- The text of the value-size line (mcpiper.cpp lines 226–234): if the
formatter-reported uncompressed size differs from the raw value length, the
savings form with percentage `100.0 - 100.0 * compressed / uncompressed`,
otherwise the raw byte count.  The percentage is modelled in exact rational
arithmetic; when the divisor `uncompressedSize` is zero — which the guard
`uncompressedSize != value.size()` does not exclude — the floating-point
expression in the source is a division by zero, which the embedding
represents as `none`. -/
def valueSizeText (rawLen uncompressed : Nat) : Option (List Char) :=
  if uncompressed ≠ rawLen then
    if uncompressed = 0 then none
    else some (Nat.toDigits 10 uncompressed ++ (" uncompressed, ").toList ++
      Nat.toDigits 10 rawLen ++ (" compressed, ").toList ++
      formatFixed2 (100 - 100 * (rawLen : ℚ) / (uncompressed : ℚ)) ++
      ("% savings").toList)
  else some (Nat.toDigits 10 rawLen)

/-- The attribute part of the rendered block (mcpiper.cpp lines 174–214):
opening marker, header line, reqid and flags in hex, optional flag
descriptions, optional exptime, and the terminating newline. -/
def attrPart (env : Env) (reqid : Nat) (msg : McMsg) : StyledString :=
  let out := StyledString.empty
  let out := out.appendColored ("\x7b\n").toList kFormat.dataOpColor
  let msgHeader := serializeMessageHeader msg
  let out := if msgHeader = [] then out
    else (out.append ("  ").toList).appendColored msgHeader kFormat.headerColor
  let out := out.appendColored ("\n  reqid: ").toList kFormat.msgAttrColor
  let out := out.appendColored (hex0x reqid) kFormat.dataValueColor
  let out := out.appendColored ("\n  flags: ").toList kFormat.msgAttrColor
  let out := out.appendColored (hex0x msg.flags) kFormat.dataValueColor
  let out := if msg.flags ≠ 0 then
      let flagDesc := env.describeFlags msg.flags
      if flagDesc = [] then out
      else
        let o := out.pushAppendColor kFormat.attrColor
        let o := o.append (" [").toList
        let o := o.append (List.intercalate ((", ").toList) flagDesc)
        let o := o.pushBack ']'
        o.popAppendColor
    else out
  let out := if msg.exptime ≠ 0 then
      (out.appendColored ("\n  exptime: ").toList
        kFormat.msgAttrColor).appendColored (Nat.toDigits 10 msg.exptime)
        kFormat.dataValueColor
    else out
  out.pushBack '\n'

/-- The rendering part of `msgReady` (mcpiper.cpp lines 174–243): attribute
block, then — when a value is present and non-empty — the single call to the
external value formatter, the value-size line, the value body unless quiet,
and the closing marker.  The result carries the list of value-formatter
invocations (arguments of each call) next to the rendered block; `none`
records that the savings percentage divided by zero. -/
def renderMsg (env : Env) (reqid : Nat) (msg : McMsg) :
    Option (List (List Char × Nat) × StyledString) :=
  let out := attrPart env reqid msg
  if msg.value = [] then
    some ([], out.appendColored ("\x7d\n").toList kFormat.dataOpColor)
  else
    let r := env.valueFormatter msg.value msg.flags
    match valueSizeText msg.value.length r.1 with
    | none => none
    | some vsz =>
        let out := out.appendColored ("  value size: ").toList
          kFormat.msgAttrColor
        let out := out.appendColored vsz kFormat.dataValueColor
        let out := if env.quiet then out
          else (out.appendColored ("\n  value: ").toList
            kFormat.msgAttrColor).appendStyled r.2
        let out := out.pushBack '\n'
        some ([(msg.value, msg.flags)],
          out.appendColored ("\x7d\n").toList kFormat.dataOpColor)

/-- Modelled from the spec: the boost regular-expression engine behind
`matchAll` (mcpiper.cpp lines 134–145), restricted to patterns without
metacharacters (a literal byte string): every non-overlapping occurrence,
scanned left to right, earliest first.  `fuel` bounds the recursion by the
length of the text. -/
def matchAllFuel (p : List Char) : Nat → List Char → Nat → List (Nat × Nat)
  | 0, _, _ => []
  | _ + 1, [], _ => []
  | fuel + 1, c :: rest, pos =>
      if (c :: rest).take p.length = p then
        (pos, p.length) ::
          matchAllFuel p fuel (rest.drop (p.length - 1)) (pos + p.length)
      else
        matchAllFuel p fuel rest (pos + 1)

/-- `matchAll` (mcpiper.cpp lines 134–145): all occurrences of the pattern
in the text as `(offset, length)` pairs. -/
def matchAll (text pat : List Char) : List (Nat × Nat) :=
  matchAllFuel pat text.length text 0

/-- The pattern occurs in `t` starting at position `i`. -/
abbrev occursAt (p t : List Char) (i : Nat) : Prop :=
  (t.drop i).take p.length = p

/-- One effect on the output sink: a write of a styled block, or a flush. -/
inductive SinkOp where
  | write (s : StyledString)
  | flush
deriving DecidableEq, Repr

/-- Observable outcome of one `msgReady` call: the value-formatter
invocations it made and the operations it performed on the output sink. -/
structure MsgOutput where
  vfCalls : List (List Char × Nat)
  sink : List SinkOp
deriving DecidableEq, Repr

/-- `msgReady` (mcpiper.cpp lines 169–257): return immediately on the end
sentinel; render; when a content pattern is configured, drop the record if
the pattern has no match in the rendered plain text, otherwise recolor every
match span; finally write the block and flush. -/
def msgReady (env : Env) (reqid : Nat) (msg : McMsg) : Option MsgOutput :=
  if msg.op = McOp.mc_op_end then some ⟨[], []⟩
  else
    match renderMsg env reqid msg with
    | none => none
    | some (calls, out) =>
        match env.dataPattern with
        | none => some ⟨calls, [SinkOp.write out, SinkOp.flush]⟩
        | some p =>
            if matchAll out.text p = [] then some ⟨calls, []⟩
            else some ⟨calls,
              [SinkOp.write
                ((matchAll out.text p).foldl
                  (fun o m => o.setFg m.1 m.2 kFormat.matchColor) out),
               SinkOp.flush]⟩

/-- `buildDataRegex` (mcpiper.cpp lines 280–291): no compiled pattern when
the positional match expression is empty (match everything); otherwise the
compiled pattern, modelled by its text.  A malformed pattern exits the
process before the loop starts and is outside this embedding. -/
def buildDataRegex (matchExpression : List Char) : Option (List Char) :=
  if matchExpression = [] then none else some matchExpression

/-! Basic facts about the styled-text model. -/

theorem StyledString.text_appendColored (s : StyledString) (t : List Char)
    (c : Color) : (s.appendColored t c).text = s.text ++ t := by
  have h : (Prod.fst ∘ fun ch : Char => (ch, c)) = id := rfl
  simp [StyledString.text, StyledString.appendColored, List.map_map, h]

theorem StyledString.text_append (s : StyledString) (t : List Char) :
    (s.append t).text = s.text ++ t := by
  simp [StyledString.append, StyledString.text_appendColored]

theorem StyledString.text_pushBack (s : StyledString) (ch : Char) :
    (s.pushBack ch).text = s.text ++ [ch] := by
  simp [StyledString.pushBack, StyledString.text_append]

theorem StyledString.text_appendStyled (s o : StyledString) :
    (s.appendStyled o).text = s.text ++ o.text := by
  simp [StyledString.text, StyledString.appendStyled]

theorem StyledString.text_pushAppendColor (s : StyledString) (c : Color) :
    (s.pushAppendColor c).text = s.text := rfl

theorem StyledString.text_popAppendColor (s : StyledString) :
    (s.popAppendColor).text = s.text := rfl

theorem recolorRuns_map_fst (rs : List (Char × Color)) (i o l : Nat)
    (c : Color) : (recolorRuns rs i o l c).map Prod.fst = rs.map Prod.fst := by
  induction rs generalizing i with
  | nil => rfl
  | cons r rs ih => simp [recolorRuns, ih]

theorem StyledString.text_setFg (s : StyledString) (o l : Nat) (c : Color) :
    (s.setFg o l c).text = s.text := by
  simp [StyledString.text, StyledString.setFg, recolorRuns_map_fst]

theorem recolorRuns_getElem (rs : List (Char × Color)) (i o l : Nat)
    (c : Color) (j : Nat) :
    (recolorRuns rs i o l c)[j]? =
      (rs[j]?).map
        (fun r => (r.1, if o ≤ i + j ∧ i + j < o + l then c else r.2)) := by
  induction rs generalizing i j with
  | nil => simp [recolorRuns]
  | cons r rs ih =>
    cases j with
    | zero => simp [recolorRuns]
    | succ j =>
      simp only [recolorRuns, List.getElem?_cons_succ, ih (i + 1) j]
      have : i + 1 + j = i + (j + 1) := by omega
      rw [this]

theorem colorAt_setFg_mem (s : StyledString) (o l : Nat) (c : Color) (j : Nat)
    (h1 : o ≤ j) (h2 : j < o + l) (hj : j < s.runs.length) :
    colorAt (s.setFg o l c) j = some c := by
  rcases List.getElem?_eq_getElem hj with hget
  simp [colorAt, StyledString.setFg, recolorRuns_getElem, hget, h1, h2]

theorem colorAt_setFg_lt (s : StyledString) (o l : Nat) (c : Color) (j : Nat)
    (h : j < o) : colorAt (s.setFg o l c) j = colorAt s j := by
  have h2 : ¬ (o ≤ j ∧ j < o + l) := by omega
  cases hget : s.runs[j]? with
  | none => simp [colorAt, StyledString.setFg, recolorRuns_getElem, hget]
  | some r => simp [colorAt, StyledString.setFg, recolorRuns_getElem, hget, h2]

theorem foldl_setFg_text (ms : List (Nat × Nat)) (s : StyledString)
    (c : Color) :
    (ms.foldl (fun o m => o.setFg m.1 m.2 c) s).text = s.text := by
  induction ms generalizing s with
  | nil => rfl
  | cons m ms ih => rw [List.foldl_cons, ih, StyledString.text_setFg]

theorem foldl_setFg_colorAt_lt (ms : List (Nat × Nat)) (s : StyledString)
    (c : Color) (hi j : Nat) (hj : j < hi) (hms : ∀ m ∈ ms, hi ≤ m.1) :
    colorAt (ms.foldl (fun o m => o.setFg m.1 m.2 c) s) j = colorAt s j := by
  induction ms generalizing s with
  | nil => rfl
  | cons m ms ih =>
    rw [List.foldl_cons, ih _ (fun x hx => hms x (List.mem_cons_of_mem m hx)),
      colorAt_setFg_lt]
    exact lt_of_lt_of_le hj (hms m (List.mem_cons_self m ms))

/-! Facts about the pattern matcher. -/

theorem matchAllFuel_mem (p : List Char) (fuel : Nat) (t : List Char)
    (pos : Nat) :
    ∀ m ∈ matchAllFuel p fuel t pos, pos ≤ m.1 ∧ m.2 = p.length := by
  induction fuel generalizing t pos with
  | zero => simp [matchAllFuel]
  | succ fuel ih =>
    cases t with
    | nil => simp [matchAllFuel]
    | cons c rest =>
      by_cases hpre : (c :: rest).take p.length = p
      · simp only [matchAllFuel, if_pos hpre]
        intro m hm
        rcases List.mem_cons.mp hm with h | h
        · subst h; exact ⟨le_refl _, rfl⟩
        · rcases ih _ _ m h with ⟨h1, h2⟩
          exact ⟨by omega, h2⟩
      · simp only [matchAllFuel, if_neg hpre]
        intro m hm
        rcases ih _ _ m hm with ⟨h1, h2⟩
        exact ⟨by omega, h2⟩

theorem matchAllFuel_sorted (p : List Char) (fuel : Nat) (t : List Char)
    (pos : Nat) :
    List.Pairwise (fun a b : Nat × Nat => a.1 + a.2 ≤ b.1)
      (matchAllFuel p fuel t pos) := by
  induction fuel generalizing t pos with
  | zero => simp [matchAllFuel]
  | succ fuel ih =>
    cases t with
    | nil => simp [matchAllFuel]
    | cons c rest =>
      by_cases hpre : (c :: rest).take p.length = p
      · simp only [matchAllFuel, if_pos hpre]
        refine List.Pairwise.cons ?_ (ih _ _)
        intro b hb
        have := (matchAllFuel_mem p fuel _ _ b hb).1
        simpa using by omega
      · simp only [matchAllFuel, if_neg hpre]
        exact ih _ _

theorem matchAllFuel_occurs (p : List Char) (hp : p ≠ []) (fuel : Nat)
    (t : List Char) (pos : Nat) :
    ∀ m ∈ matchAllFuel p fuel t pos, occursAt p t (m.1 - pos) := by
  induction fuel generalizing t pos with
  | zero => simp [matchAllFuel]
  | succ fuel ih =>
    cases t with
    | nil => simp [matchAllFuel]
    | cons c rest =>
      by_cases hpre : (c :: rest).take p.length = p
      · simp only [matchAllFuel, if_pos hpre]
        intro m hm
        rcases List.mem_cons.mp hm with h | h
        · subst h
          simpa [occursAt] using hpre
        · have hmem := (matchAllFuel_mem p fuel _ _ m h).1
          have hocc := ih _ _ m h
          have hd : rest.drop (p.length - 1) = (c :: rest).drop p.length := by
            cases hq : p.length with
            | zero => exact absurd (List.length_eq_zero.mp hq) hp
            | succ k => simp [hq]
          unfold occursAt at hocc ⊢
          rw [hd, List.drop_drop] at hocc
          have he : p.length + (m.1 - (pos + p.length)) = m.1 - pos := by omega
          rwa [he] at hocc
      · simp only [matchAllFuel, if_neg hpre]
        intro m hm
        have hmem := (matchAllFuel_mem p fuel _ _ m hm).1
        have hocc := ih _ _ m hm
        unfold occursAt at hocc ⊢
        have he : m.1 - pos = (m.1 - (pos + 1)) + 1 := by omega
        rw [he, List.drop_succ_cons]
        exact hocc

theorem matchAllFuel_eq_nil (p : List Char) (hp : p ≠ []) (fuel : Nat)
    (t : List Char) (pos : Nat) (hlen : t.length ≤ fuel)
    (h : matchAllFuel p fuel t pos = []) : ∀ i, ¬ occursAt p t i := by
  induction fuel generalizing t pos with
  | zero =>
    have ht : t = [] := List.length_eq_zero.mp (Nat.le_zero.mp hlen)
    subst ht
    intro i hocc
    exact hp (by simpa [occursAt] using hocc.symm)
  | succ fuel ih =>
    cases t with
    | nil =>
      intro i hocc
      exact hp (by simpa [occursAt] using hocc.symm)
    | cons c rest =>
      by_cases hpre : (c :: rest).take p.length = p
      · simp [matchAllFuel, if_pos hpre] at h
      · simp only [matchAllFuel, if_neg hpre] at h
        have hlen2 : rest.length ≤ fuel := by
          simp only [List.length_cons] at hlen
          omega
        have hall := ih rest (pos + 1) hlen2 h
        intro i hocc
        cases i with
        | zero => exact hpre (by simpa [occursAt] using hocc)
        | succ i => exact hall i (by simpa [occursAt] using hocc)

theorem matchAllFuel_ne_nil (p : List Char) (hp : p ≠ []) (fuel : Nat)
    (t : List Char) (pos : Nat) (i : Nat) (hi : occursAt p t i)
    (hlen : t.length ≤ fuel) : matchAllFuel p fuel t pos ≠ [] := by
  intro h
  exact matchAllFuel_eq_nil p hp fuel t pos hlen h i hi

theorem matchAllFuel_first (p : List Char) (hp : p ≠ []) (fuel : Nat)
    (t : List Char) (pos i : Nat) (hlen : t.length ≤ fuel)
    (hi : occursAt p t i) (hmin : ∀ j, j < i → ¬ occursAt p t j) :
    ∃ tl, matchAllFuel p fuel t pos = (pos + i, p.length) :: tl := by
  induction fuel generalizing t pos i with
  | zero =>
    have ht : t = [] := List.length_eq_zero.mp (Nat.le_zero.mp hlen)
    subst ht
    exact absurd hi (fun hocc => hp (by simpa [occursAt] using hocc.symm))
  | succ fuel ih =>
    cases t with
    | nil =>
      exact absurd hi (fun hocc => hp (by simpa [occursAt] using hocc.symm))
    | cons c rest =>
      by_cases hpre : (c :: rest).take p.length = p
      · have hi0 : i = 0 := by
          by_contra h0
          exact hmin 0 (Nat.pos_of_ne_zero h0) (by simpa [occursAt] using hpre)
        subst hi0
        refine ⟨matchAllFuel p fuel (rest.drop (p.length - 1))
          (pos + p.length), ?_⟩
        simp [matchAllFuel, if_pos hpre]
      · have hi0 : i ≠ 0 := fun h0 => hpre (by simpa [occursAt, h0] using hi)
        obtain ⟨i2, rfl⟩ : ∃ i2, i = i2 + 1 := ⟨i - 1, by omega⟩
        have hocc2 : occursAt p rest i2 := by simpa [occursAt] using hi
        have hmin2 : ∀ j, j < i2 → ¬ occursAt p rest j := by
          intro j hj hocc
          exact hmin (j + 1) (by omega) (by simpa [occursAt] using hocc)
        have hlen2 : rest.length ≤ fuel := by
          simp only [List.length_cons] at hlen
          omega
        obtain ⟨tl, htl⟩ := ih rest (pos + 1) i2 hlen2 hocc2 hmin2
        refine ⟨tl, ?_⟩
        simp only [matchAllFuel, if_neg hpre, htl]
        have he : pos + 1 + i2 = pos + (i2 + 1) := by omega
        rw [he]

theorem matchAll_mem (t p : List Char) :
    ∀ m ∈ matchAll t p, m.2 = p.length := by
  intro m hm
  exact (matchAllFuel_mem p t.length t 0 m hm).2

theorem matchAll_occurs (t p : List Char) (hp : p ≠ []) :
    ∀ m ∈ matchAll t p, occursAt p t m.1 := by
  intro m hm
  simpa using matchAllFuel_occurs p hp t.length t 0 m hm

theorem matchAll_sorted (t p : List Char) :
    List.Pairwise (fun a b : Nat × Nat => a.1 + a.2 ≤ b.1) (matchAll t p) :=
  matchAllFuel_sorted p t.length t 0

theorem matchAll_eq_nil_iff (t p : List Char) (hp : p ≠ []) :
    matchAll t p = [] ↔ ∀ i, ¬ occursAt p t i := by
  constructor
  · exact fun h => matchAllFuel_eq_nil p hp t.length t 0 (le_refl _) h
  · intro h
    by_contra hne
    obtain ⟨m, hm⟩ := List.exists_mem_of_ne_nil _ hne
    exact h m.1 (matchAll_occurs t p hp m hm)

theorem matchAll_first (t p : List Char) (hp : p ≠ []) (i : Nat)
    (hi : occursAt p t i) (hmin : ∀ j, j < i → ¬ occursAt p t j) :
    ∃ tl, matchAll t p = (i, p.length) :: tl := by
  obtain ⟨tl, htl⟩ := matchAllFuel_first p hp t.length t 0 i (le_refl _) hi hmin
  exact ⟨tl, by simpa using htl⟩

theorem occursAt_add_length_le (p t : List Char) (i : Nat) (hp : p ≠ [])
    (h : occursAt p t i) : i + p.length ≤ t.length := by
  have hlen := congrArg List.length h
  simp [List.length_take, List.length_drop] at hlen
  have hpos : 0 < p.length := List.length_pos.mpr hp
  omega

/-! Spec-side characterization of the header layout, for comparison with
`serializeMessageHeader`. -/

/-- The present header fields in order, as the spec lists them: operation
name when known, result name when known, backslash-escaped key when
present. -/
def specHeaderFields (msg : McMsg) : List (List Char) :=
  (if msg.op ≠ McOp.mc_op_unknown then [mc_op_to_string msg.op] else []) ++
    (if msg.result ≠ McRes.mc_res_unknown then [mc_res_to_string msg.result]
      else []) ++
    (if msg.key ≠ [] then [backslashify msg.key] else [])

/-- Joining fields with exactly one space between adjacent present fields and
no leading or trailing separator — the header contract as the spec words
it. -/
def specJoinSpace : List (List Char) → List Char
  | [] => []
  | [x] => x
  | x :: xs => x ++ ' ' :: specJoinSpace xs

theorem mc_op_to_string_ne_nil (op : McOp) : mc_op_to_string op ≠ [] := by
  cases op <;> decide

theorem mc_res_to_string_ne_nil (res : McRes) : mc_res_to_string res ≠ [] := by
  cases res <;> decide

theorem serializeMessageHeader_eq_specJoin (msg : McMsg) :
    serializeMessageHeader msg = specJoinSpace (specHeaderFields msg) := by
  rcases msg with ⟨op, res, key, flags, exptime, value⟩
  by_cases hop : op = McOp.mc_op_unknown <;>
    by_cases hres : res = McRes.mc_res_unknown <;>
      by_cases hkey : key = ([] : List Char) <;>
        simp [serializeMessageHeader, specHeaderFields, specJoinSpace, hop,
          hres, hkey, mc_op_to_string_ne_nil, mc_res_to_string_ne_nil,
          List.append_ne_nil_of_left_ne_nil]

/-! Concrete records and configurations used to instantiate the claims. -/

/-- A configuration with no content pattern, quiet off, no recognized flags
and a value formatter reporting uncompressed size zero with an empty body. -/
def env0 : Env := ⟨none, false, fun _ => [], fun _ _ => (0, StyledString.empty)⟩

/-- A configuration whose content pattern is the literal `zzz`. -/
def envZzz : Env :=
  ⟨some (("zzz").toList), false, fun _ => [],
   fun _ _ => (0, StyledString.empty)⟩

/-- The record of the spec's rendering example: a set operation with unknown
result, key `foo`, zero flags, absent expiration and absent value. -/
def msgSetFoo : McMsg :=
  ⟨McOp.mc_op_set, McRes.mc_res_unknown, ("foo").toList, 0, 0, []⟩

/-- An end-sentinel record. -/
def msgEnd : McMsg :=
  ⟨McOp.mc_op_end, McRes.mc_res_unknown, [], 0, 0, []⟩

/-- A record carrying a ten-byte value. -/
def msgVal10 : McMsg :=
  ⟨McOp.mc_op_set, McRes.mc_res_unknown, [], 0, 0, ("0123456789").toList⟩

/-- The block rendered for `msgSetFoo` (the configuration is irrelevant: the
record has zero flags and no value). -/
def c1out : StyledString :=
  match renderMsg env0 1 msgSetFoo with
  | some p => p.2
  | none => StyledString.empty

/-- C1: rendering the record `{requestId 1, op set, result unknown, key foo,
flags 0, expiration absent, value absent}` produces exactly the text
`"{\n  set foo\n  reqid: 0x1\n  flags: 0x0\n}\n"`; and in general the header
line is the present fields (operation name, result name, escaped key) joined
by exactly one space, with no leading or trailing separators, omitted fields
leaving no trace. -/
theorem c1_render_example (env : Env) (hp : env.dataPattern = none) :
    (∃ out, msgReady env 1 msgSetFoo =
        some ⟨[], [SinkOp.write out, SinkOp.flush]⟩ ∧
      out.text =
        ("\x7b\n  set foo\n  reqid: 0x1\n  flags: 0x0\n\x7d\n").toList) ∧
    ∀ msg : McMsg,
      serializeMessageHeader msg = specJoinSpace (specHeaderFields msg) := by
  constructor
  · refine ⟨c1out, ?_, by decide⟩
    have hr : renderMsg env 1 msgSetFoo = some ([], c1out) := rfl
    have hop : ¬ msgSetFoo.op = McOp.mc_op_end := by decide
    simp [msgReady, hr, hp, hop]
  · exact serializeMessageHeader_eq_specJoin

/-- Witness for C1 at the all-defaults configuration. -/
theorem c1_render_example_witness :
    (∃ out, msgReady env0 1 msgSetFoo =
        some ⟨[], [SinkOp.write out, SinkOp.flush]⟩ ∧
      out.text =
        ("\x7b\n  set foo\n  reqid: 0x1\n  flags: 0x0\n\x7d\n").toList) ∧
    ∀ msg : McMsg,
      serializeMessageHeader msg = specJoinSpace (specHeaderFields msg) :=
  c1_render_example env0 rfl

/-- C3: a record whose operation is the end sentinel produces no output at
all: `msgReady` returns immediately, with no value-formatter call and no
write or flush on the sink. -/
theorem c3_end_sentinel (env : Env) (reqid : Nat) (msg : McMsg)
    (h : msg.op = McOp.mc_op_end) :
    msgReady env reqid msg = some ⟨[], []⟩ := by
  simp [msgReady, h]

/-- Witness for C3 at a concrete end-sentinel record. -/
theorem c3_end_sentinel_witness : msgReady env0 7 msgEnd = some ⟨[], []⟩ :=
  c3_end_sentinel env0 7 msgEnd rfl

/-- C9: the savings-percentage computation is unguarded against a zero
divisor: for a record with a non-empty ten-byte raw value whose formatter
reports uncompressed size 0, the savings branch is taken (its guard
`uncompressedSize != value.size()` holds) and the expression
`100.0 - 100.0 * compressed / uncompressed` divides by zero, which the
embedding records as the undefined value-size line `none`. -/
theorem c9_savings_division_by_zero :
    msgVal10.value ≠ [] ∧
    (env0.valueFormatter msgVal10.value msgVal10.flags).1 = 0 ∧
    (env0.valueFormatter msgVal10.value msgVal10.flags).1 ≠
      msgVal10.value.length ∧
    valueSizeText msgVal10.value.length 0 = none ∧
    msgReady env0 1 msgVal10 = none := by
  exact ⟨by decide, rfl, by decide, by decide, by decide⟩

/-- C8: an empty positional pattern compiles to no data regex at all, and
with no data regex every rendered non-end-sentinel record is written to the
sink unchanged (no matching, no highlighting). -/
theorem c8_empty_pattern (env : Env) (reqid : Nat) (msg : McMsg)
    (calls : List (List Char × Nat)) (out : StyledString)
    (hp : env.dataPattern = buildDataRegex (("").toList))
    (hop : msg.op ≠ McOp.mc_op_end)
    (hr : renderMsg env reqid msg = some (calls, out)) :
    buildDataRegex (("").toList) = none ∧
    msgReady env reqid msg =
      some ⟨calls, [SinkOp.write out, SinkOp.flush]⟩ := by
  have hnone : buildDataRegex (("").toList) = none := by decide
  rw [hnone] at hp
  exact ⟨hnone, by simp [msgReady, hop, hr, hp]⟩

/-- Witness for C8 at the example record and the empty-pattern
configuration. -/
theorem c8_empty_pattern_witness :
    buildDataRegex (("").toList) = none ∧
    msgReady env0 1 msgSetFoo =
      some ⟨[], [SinkOp.write c1out, SinkOp.flush]⟩ :=
  c8_empty_pattern env0 1 msgSetFoo [] c1out rfl (by decide) rfl

/-- C2: the keep/drop decision precedes any sink traffic: a `msgReady` call
either leaves the sink untouched or performs exactly one write immediately
followed by one flush (never partial output), and whenever a content pattern
is configured and has zero matches in the rendered block the record is
dropped with the sink untouched. -/
theorem c2_drop_is_all_or_nothing :
    (∀ env reqid msg r, msgReady env reqid msg = some r →
      r.sink = [] ∨ ∃ s, r.sink = [SinkOp.write s, SinkOp.flush]) ∧
    (∀ env reqid msg p calls out, env.dataPattern = some p →
      msg.op ≠ McOp.mc_op_end →
      renderMsg env reqid msg = some (calls, out) →
      matchAll out.text p = [] →
      msgReady env reqid msg = some ⟨calls, []⟩) := by
  constructor
  · intro env reqid msg r h
    unfold msgReady at h
    split at h
    · cases h
      exact Or.inl rfl
    · split at h
      · exact absurd h (by simp)
      · split at h
        · cases h
          exact Or.inr ⟨_, rfl⟩
        · split at h
          · cases h
            exact Or.inl rfl
          · cases h
            exact Or.inr ⟨_, rfl⟩
  · intro env reqid msg p calls out hp hop hr hms
    simp [msgReady, hp, hop, hr, hms]

/-- Witness for C2: with pattern `zzz` and the example record (whose block
contains no `zzz`), the record is dropped and the sink receives nothing. -/
theorem c2_drop_is_all_or_nothing_witness :
    msgReady envZzz 1 msgSetFoo = some ⟨[], []⟩ :=
  c2_drop_is_all_or_nothing.2 envZzz 1 msgSetFoo (("zzz").toList) [] c1out
    rfl (by decide) rfl (by decide)

/-- C5: the matcher returns every non-overlapping occurrence of the (literal)
pattern as `(offset, length)` pairs, ordered left to right with the earliest
start first, the empty list exactly when there is no occurrence; matching
`a` against `banana` yields exactly `[(1,1),(3,1),(5,1)]`. -/
theorem c5_matchAll_contract (t p : List Char) (hp : p ≠ []) :
    matchAll (("banana").toList) (("a").toList) = [(1, 1), (3, 1), (5, 1)] ∧
    (∀ m ∈ matchAll t p, m.2 = p.length ∧ occursAt p t m.1) ∧
    List.Pairwise (fun a b : Nat × Nat => a.1 + a.2 ≤ b.1) (matchAll t p) ∧
    (matchAll t p = [] ↔ ∀ i, ¬ occursAt p t i) ∧
    (∀ i, occursAt p t i → (∀ j, j < i → ¬ occursAt p t j) →
      ∃ tl, matchAll t p = (i, p.length) :: tl) :=
  ⟨by decide,
   fun m hm => ⟨matchAll_mem t p m hm, matchAll_occurs t p hp m hm⟩,
   matchAll_sorted t p,
   matchAll_eq_nil_iff t p hp,
   fun i hi hmin => matchAll_first t p hp i hi hmin⟩

/-- Witness for C5: the banana example. -/
theorem c5_matchAll_contract_witness :
    matchAll (("banana").toList) (("a").toList) = [(1, 1), (3, 1), (5, 1)] :=
  (c5_matchAll_contract (("banana").toList) (("a").toList) (by decide)).1

/-! Shape of the rendered block when a non-empty value is present. -/

theorem renderMsg_value_quiet (env : Env) (reqid : Nat) (msg : McMsg)
    (hv : msg.value ≠ []) (vsz : List Char)
    (hvsz : valueSizeText msg.value.length
      (env.valueFormatter msg.value msg.flags).1 = some vsz)
    (hq : env.quiet = true) :
    ∃ out, renderMsg env reqid msg = some ([(msg.value, msg.flags)], out) ∧
      out.text = (attrPart env reqid msg).text ++
        ("  value size: ").toList ++ vsz ++ ['\n'] ++ ("\x7d\n").toList := by
  refine ⟨((((attrPart env reqid msg).appendColored (("  value size: ").toList)
      kFormat.msgAttrColor).appendColored vsz
      kFormat.dataValueColor).pushBack '\n').appendColored
      (("\x7d\n").toList) kFormat.dataOpColor, ?_, ?_⟩
  · simp [renderMsg, hv, hvsz, hq]
  · simp [StyledString.text_appendColored, StyledString.text_pushBack,
      List.append_assoc]

theorem renderMsg_value_verbose (env : Env) (reqid : Nat) (msg : McMsg)
    (hv : msg.value ≠ []) (vsz : List Char)
    (hvsz : valueSizeText msg.value.length
      (env.valueFormatter msg.value msg.flags).1 = some vsz)
    (hq : env.quiet = false) :
    ∃ out, renderMsg env reqid msg = some ([(msg.value, msg.flags)], out) ∧
      out.text = (attrPart env reqid msg).text ++
        ("  value size: ").toList ++ vsz ++ ("\n  value: ").toList ++
        (env.valueFormatter msg.value msg.flags).2.text ++ ['\n'] ++
        ("\x7d\n").toList := by
  refine ⟨((((((attrPart env reqid msg).appendColored
      (("  value size: ").toList) kFormat.msgAttrColor).appendColored vsz
      kFormat.dataValueColor).appendColored (("\n  value: ").toList)
      kFormat.msgAttrColor).appendStyled
      (env.valueFormatter msg.value msg.flags).2).pushBack '\n').appendColored
      (("\x7d\n").toList) kFormat.dataOpColor, ?_, ?_⟩
  · simp [renderMsg, hv, hvsz, hq]
  · simp [StyledString.text_appendColored, StyledString.text_pushBack,
      StyledString.text_appendStyled, List.append_assoc]

theorem attrPart_congr (env1 env2 : Env) (reqid : Nat) (msg : McMsg)
    (h : env1.describeFlags = env2.describeFlags) :
    attrPart env1 reqid msg = attrPart env2 reqid msg := by
  simp [attrPart, h]

theorem valueSizeText_10_20 :
    valueSizeText 10 20 =
      some (("20 uncompressed, 10 compressed, 50.00% savings").toList) := by
  have h1 : round ((100 - 100 * ((10 : ℕ) : ℚ) / ((20 : ℕ) : ℚ)) * 100) =
      5000 := by
    norm_num [round_eq]
  simp only [valueSizeText, formatFixed2, h1]
  decide

theorem valueSizeText_eq_rawLen (n : Nat) :
    valueSizeText n n = some (Nat.toDigits 10 n) := by
  simp [valueSizeText]

/-- A value formatter reporting uncompressed size 20 with an empty body. -/
def vf20 : List Char → Nat → Nat × StyledString :=
  fun _ _ => (20, StyledString.empty)

/-- Quiet configuration with the size-20 formatter. -/
def envQuiet20 : Env := ⟨none, true, fun _ => [], vf20⟩

/-- Non-quiet configuration with the size-20 formatter. -/
def envVerbose20 : Env := ⟨none, false, fun _ => [], vf20⟩

/-- C4: for a record with a present non-empty value, when the
formatter-reported uncompressed size differs from the raw length (raw 10,
uncompressed 20) the value-size line reads exactly
`20 uncompressed, 10 compressed, 50.00% savings` — the percentage being
`100 - 100 * compressed / uncompressed` rounded to two decimals — and when
the two sizes agree the line is the raw byte count alone. -/
theorem c4_value_size_line (env : Env) (reqid : Nat) (msg : McMsg)
    (h10 : msg.value.length = 10)
    (h20 : (env.valueFormatter msg.value msg.flags).1 = 20) :
    (∃ out l r, renderMsg env reqid msg =
        some ([(msg.value, msg.flags)], out) ∧
      out.text = l ++
        ("  value size: 20 uncompressed, 10 compressed, 50.00% savings\n").toList
        ++ r) ∧
    valueSizeText 10 20 =
      some (("20 uncompressed, 10 compressed, 50.00% savings").toList) ∧
    (∀ n, valueSizeText n n = some (Nat.toDigits 10 n)) := by
  refine ⟨?_, valueSizeText_10_20, valueSizeText_eq_rawLen⟩
  have hv : msg.value ≠ [] := by
    intro h
    rw [h] at h10
    simp at h10
  have hvsz : valueSizeText msg.value.length
      (env.valueFormatter msg.value msg.flags).1 =
      some (("20 uncompressed, 10 compressed, 50.00% savings").toList) := by
    rw [h10, h20]
    exact valueSizeText_10_20
  have hsplit :
      ("  value size: 20 uncompressed, 10 compressed, 50.00% savings\n").toList
      = ("  value size: ").toList ++
        ("20 uncompressed, 10 compressed, 50.00% savings").toList ++ ['\n'] :=
    by decide
  cases hq : env.quiet with
  | true =>
    obtain ⟨out, hr, ht⟩ := renderMsg_value_quiet env reqid msg hv _ hvsz hq
    refine ⟨out, (attrPart env reqid msg).text, ("\x7d\n").toList, hr, ?_⟩
    rw [ht, hsplit]
    simp [List.append_assoc]
  | false =>
    obtain ⟨out, hr, ht⟩ := renderMsg_value_verbose env reqid msg hv _ hvsz hq
    refine ⟨out, (attrPart env reqid msg).text,
      ("  value: ").toList ++
        (env.valueFormatter msg.value msg.flags).2.text ++ ['\n'] ++
        ("\x7d\n").toList, hr, ?_⟩
    rw [ht, hsplit]
    have hnl : ("\n  value: ").toList = '\n' :: ("  value: ").toList := by
      decide
    rw [hnl]
    simp [List.append_assoc]

/-- Witness for C4 at a ten-byte value and the size-20 formatter. -/
theorem c4_value_size_line_witness :
    (∃ out l r, renderMsg envVerbose20 1 msgVal10 =
        some ([(msgVal10.value, msgVal10.flags)], out) ∧
      out.text = l ++
        ("  value size: 20 uncompressed, 10 compressed, 50.00% savings\n").toList
        ++ r) ∧
    valueSizeText 10 20 =
      some (("20 uncompressed, 10 compressed, 50.00% savings").toList) ∧
    (∀ n, valueSizeText n n = some (Nat.toDigits 10 n)) :=
  c4_value_size_line envVerbose20 1 msgVal10 (by decide) rfl

/-- C7: with quiet set and a present non-empty value, the value-size line is
emitted but the value body line is not; without quiet (everything else
equal) the same block additionally carries `\n  value: ` and the formatter
body between the value-size line and the closing marker.  Quiet never
suppresses the value-size line. -/
theorem c7_quiet_suppresses_value_body (env1 env2 : Env) (reqid : Nat)
    (msg : McMsg) (hq1 : env1.quiet = true) (hq2 : env2.quiet = false)
    (hvf : env1.valueFormatter = env2.valueFormatter)
    (hdf : env1.describeFlags = env2.describeFlags)
    (hv : msg.value ≠ []) (vsz : List Char)
    (hvsz : valueSizeText msg.value.length
      (env1.valueFormatter msg.value msg.flags).1 = some vsz) :
    ∃ out1 out2,
      renderMsg env1 reqid msg = some ([(msg.value, msg.flags)], out1) ∧
      renderMsg env2 reqid msg = some ([(msg.value, msg.flags)], out2) ∧
      out1.text = (attrPart env1 reqid msg).text ++
        ("  value size: ").toList ++ vsz ++ ['\n'] ++ ("\x7d\n").toList ∧
      out2.text = (attrPart env1 reqid msg).text ++
        ("  value size: ").toList ++ vsz ++ ("\n  value: ").toList ++
        (env1.valueFormatter msg.value msg.flags).2.text ++ ['\n'] ++
        ("\x7d\n").toList := by
  obtain ⟨o1, hr1, ht1⟩ := renderMsg_value_quiet env1 reqid msg hv vsz hvsz hq1
  have hvsz2 : valueSizeText msg.value.length
      (env2.valueFormatter msg.value msg.flags).1 = some vsz := by
    rw [← hvf]
    exact hvsz
  obtain ⟨o2, hr2, ht2⟩ :=
    renderMsg_value_verbose env2 reqid msg hv vsz hvsz2 hq2
  refine ⟨o1, o2, hr1, hr2, ht1, ?_⟩
  rw [ht2, attrPart_congr env2 env1 reqid msg hdf.symm, ← hvf]

/-- Witness for C7 at the ten-byte record under the quiet and non-quiet
size-20 configurations. -/
theorem c7_quiet_suppresses_value_body_witness :
    ∃ out1 out2,
      renderMsg envQuiet20 1 msgVal10 =
        some ([(msgVal10.value, msgVal10.flags)], out1) ∧
      renderMsg envVerbose20 1 msgVal10 =
        some ([(msgVal10.value, msgVal10.flags)], out2) ∧
      out1.text = (attrPart envQuiet20 1 msgVal10).text ++
        ("  value size: ").toList ++
        ("20 uncompressed, 10 compressed, 50.00% savings").toList ++
        ['\n'] ++ ("\x7d\n").toList ∧
      out2.text = (attrPart envQuiet20 1 msgVal10).text ++
        ("  value size: ").toList ++
        ("20 uncompressed, 10 compressed, 50.00% savings").toList ++
        ("\n  value: ").toList ++
        (envQuiet20.valueFormatter msgVal10.value msgVal10.flags).2.text ++
        ['\n'] ++ ("\x7d\n").toList :=
  c7_quiet_suppresses_value_body envQuiet20 envVerbose20 1 msgVal10 rfl rfl
    rfl rfl (by decide) (("20 uncompressed, 10 compressed, 50.00% savings").toList)
    (by
      rw [show msgVal10.value.length = 10 from by decide]
      exact valueSizeText_10_20)

/-- C10: the external value formatter is invoked exactly once when and only
when the record's value is present and non-empty (the render result logs
exactly that invocation with the raw value and flags), and in quiet mode the
render output depends on the formatter only through its reported
uncompressed size — the formatted body is discarded. -/
theorem c10_formatter_invoked_once :
    (∀ env reqid msg pr, renderMsg env reqid msg = some pr →
      pr.1 = if msg.value = [] then [] else [(msg.value, msg.flags)]) ∧
    (∀ env1 env2 reqid msg, env1.quiet = true → env2.quiet = true →
      env1.describeFlags = env2.describeFlags →
      (env1.valueFormatter msg.value msg.flags).1 =
        (env2.valueFormatter msg.value msg.flags).1 →
      renderMsg env1 reqid msg = renderMsg env2 reqid msg) := by
  constructor
  · intro env reqid msg pr h
    simp only [renderMsg] at h
    split at h
    · next hv =>
      cases h
      simp [hv]
    · next hv =>
      split at h
      · exact absurd h (by simp)
      · cases h
        simp [hv]
  · intro env1 env2 reqid msg hq1 hq2 hdf hfst
    have hattr := attrPart_congr env1 env2 reqid msg hdf
    by_cases hv : msg.value = []
    · simp [renderMsg, hv, hattr]
    · cases hvs : valueSizeText msg.value.length
        (env2.valueFormatter msg.value msg.flags).1 with
      | none =>
        have hvs1 : valueSizeText msg.value.length
            (env1.valueFormatter msg.value msg.flags).1 = none := by
          rw [hfst]
          exact hvs
        simp [renderMsg, hv, hvs, hvs1]
      | some vsz =>
        have hvs1 : valueSizeText msg.value.length
            (env1.valueFormatter msg.value msg.flags).1 = some vsz := by
          rw [hfst]
          exact hvs
        simp [renderMsg, hv, hvs, hvs1, hq1, hq2, hattr]

/-- A quiet configuration whose formatter reports size 20 with a non-empty
body, to contrast with `envQuiet20`. -/
def envQuiet20Body : Env :=
  ⟨none, true, fun _ => [],
   fun _ _ => (20, StyledString.empty.appendColored (("BODY").toList)
     Color.blue)⟩

/-- Witness for C10: two quiet configurations whose formatters agree on the
uncompressed size but return different bodies render identically. -/
theorem c10_formatter_invoked_once_witness :
    renderMsg envQuiet20 1 msgVal10 = renderMsg envQuiet20Body 1 msgVal10 :=
  c10_formatter_invoked_once.2 envQuiet20 envQuiet20Body 1 msgVal10 rfl rfl
    rfl rfl

/-- Configuration whose content pattern is the literal `foo`. -/
def envFoo : Env :=
  ⟨some (("foo").toList), false, fun _ => [],
   fun _ _ => (0, StyledString.empty)⟩

/-- C6: when the configured content pattern is a literal string S occurring
anywhere in the rendered block — the matching target is the whole flattened
block, header and attribute text included — the record is kept and the
written block carries at least one highlighted span, colored with the match
color, whose byte range exactly covers an occurrence of S, the surrounding
text being unchanged. -/
theorem c6_literal_highlight (env : Env) (reqid : Nat) (msg : McMsg)
    (S : List Char) (calls : List (List Char × Nat)) (out : StyledString)
    (hp : env.dataPattern = some S) (hS : S ≠ [])
    (hop : msg.op ≠ McOp.mc_op_end)
    (hr : renderMsg env reqid msg = some (calls, out))
    (hocc : ∃ i, occursAt S out.text i) :
    ∃ s i, msgReady env reqid msg =
        some ⟨calls, [SinkOp.write s, SinkOp.flush]⟩ ∧
      s.text = out.text ∧ occursAt S out.text i ∧
      ∀ j, i ≤ j → j < i + S.length →
        colorAt s j = some kFormat.matchColor := by
  classical
  have hi0 : occursAt S out.text (Nat.find hocc) := Nat.find_spec hocc
  have hmin : ∀ j, j < Nat.find hocc → ¬ occursAt S out.text j :=
    fun j hj => Nat.find_min hocc hj
  obtain ⟨tl, htl⟩ := matchAll_first out.text S hS (Nat.find hocc) hi0 hmin
  have hne : matchAll out.text S ≠ [] := by
    rw [htl]
    simp
  refine ⟨(matchAll out.text S).foldl
      (fun o m => o.setFg m.1 m.2 kFormat.matchColor) out,
    Nat.find hocc, ?_, foldl_setFg_text _ _ _, hi0, ?_⟩
  · simp [msgReady, hop, hr, hp, hne]
  · intro j hj1 hj2
    have hpair := matchAll_sorted out.text S
    rw [htl] at hpair
    have htail := (List.pairwise_cons.mp hpair).1
    have htail2 : ∀ m ∈ tl, Nat.find hocc + S.length ≤ m.1 :=
      fun m hm => htail m hm
    rw [htl, List.foldl_cons]
    rw [foldl_setFg_colorAt_lt tl _ kFormat.matchColor
      (Nat.find hocc + S.length) j hj2 htail2]
    refine colorAt_setFg_mem out (Nat.find hocc) S.length kFormat.matchColor
      j hj1 hj2 ?_
    have hlen := occursAt_add_length_le S out.text (Nat.find hocc) hS hi0
    have hrun : out.text.length = out.runs.length := by
      simp [StyledString.text]
    omega

/-- Witness for C6: pattern `foo` against the example record, whose block
contains `foo` at offset 8. -/
theorem c6_literal_highlight_witness :
    ∃ s i, msgReady envFoo 1 msgSetFoo =
        some ⟨[], [SinkOp.write s, SinkOp.flush]⟩ ∧
      s.text = c1out.text ∧ occursAt (("foo").toList) c1out.text i ∧
      ∀ j, i ≤ j → j < i + (("foo").toList).length →
        colorAt s j = some kFormat.matchColor :=
  c6_literal_highlight envFoo 1 msgSetFoo (("foo").toList) [] c1out rfl
    (by decide) (by decide) rfl ⟨8, by decide⟩
